import Mathlib

/-!
Shallow embedding of the CTG signal-analysis core (`component.py`, `signal.py`)
over exact rationals, together with theorems settling the frozen claims about
segmentation, contraction extraction, event detection, early/late deceleration
classification, variability, and the rule-based diagnosis.

Python floats are modelled as `ℚ`; numpy arrays as `List ℚ` indexed with
`List.getD` (all indices used by the source stay in range for aligned data).
Loops are modelled as folds or fuel-bounded recursions so that every
definition evaluates by kernel reduction.
-/

set_option maxRecDepth 100000

namespace CTG

attribute [local semireducible] Rat.add Rat.sub Rat.mul Rat.inv

/-- Insertion step used by `sortList`. -/
def insertSorted (x : ℚ) : List ℚ → List ℚ
  | [] => [x]
  | y :: ys => if x ≤ y then x :: y :: ys else y :: insertSorted x ys

/-- Insertion sort; only used to compute medians. -/
def sortList (l : List ℚ) : List ℚ := l.foldr insertSorted []

/-- Models `np.median` / `pandas.Series.median`: middle element for odd length,
average of the two middle elements for even length (0 on the empty list,
which the source never hits on the inputs the claims discuss). -/
def median (l : List ℚ) : ℚ :=
  let s := sortList l
  let n := l.length
  if n = 0 then 0
  else if n % 2 = 1 then s.getD (n / 2) 0
  else (s.getD (n / 2 - 1) 0 + s.getD (n / 2) 0) / 2

/-- Models `np.diff` / `pandas.Series.diff` (the leading NaN of `pandas.diff` is
skipped by `median`, so dropping it here is faithful): consecutive differences. -/
def diffList : List ℚ → List ℚ
  | x :: y :: rest => (y - x) :: diffList (y :: rest)
  | _ => []

/-- Models `np.mean`: sum divided by length. -/
def meanList (l : List ℚ) : ℚ := l.sum / (l.length : ℚ)

/-- A `Component` (one Segment): the three aligned arrays passed to
`Component.__init__`. -/
structure Component where
  time : List ℚ
  fhr : List ℚ
  uc : List ℚ
  deriving DecidableEq

/-- Indexing `self.time[i]`. -/
def tAt (c : Component) (i : ℕ) : ℚ := c.time.getD i 0

/-- Indexing `self.fetal_heart_rate[i]`. -/
def fAt (c : Component) (i : ℕ) : ℚ := c.fhr.getD i 0

/-- Indexing `self.uterine_contraction[i]`. -/
def uAt (c : Component) (i : ℕ) : ℚ := c.uc.getD i 0

/-- State of the single left-to-right scan in `_get_contractions`:
`inC` is `some (start_time, peak_value, peak_time)` while inside a
contraction, `none` outside; `found` is the list built so far. -/
structure ContractionState where
  inC : Option (ℚ × ℚ × ℚ)
  found : List (ℚ × ℚ × ℚ)

/-- One iteration of the `_get_contractions` loop body at index `i`. -/
def contractionStep (c : Component) (baseline : ℚ) (st : ContractionState) (i : ℕ) :
    ContractionState :=
  let v := uAt c i
  let tm := tAt c i
  match st.inC with
  | none => if v > baseline then ⟨some (tm, v, tm), st.found⟩ else st
  | some (s, pv, pt) =>
      if v > pv then ⟨some (s, v, tm), st.found⟩
      else if v ≤ baseline then
        ⟨none, if pt > s ∧ tm > pt then st.found ++ [(s, pt, tm)] else st.found⟩
      else st

/-- The end-of-signal handling of `_get_contractions`: if the scan is still
inside a contraction and `peak_time > start_time`, close it at the final
timestamp `self.time[-1]` (the source does not re-check `end > peak` here). -/
def contractionFinish (c : Component) (final : ContractionState) : List (ℚ × ℚ × ℚ) :=
  match final.inC with
  | some (s, _, pt) =>
      if pt > s then final.found ++ [(s, pt, c.time.getD (c.time.length - 1) 0)]
      else final.found
  | none => final.found

/-- Models `Component._get_contractions`: scan the UC channel against its median,
then apply the end-of-signal closing rule. -/
def get_contractions (c : Component) : List (ℚ × ℚ × ℚ) :=
  contractionFinish c
    ((List.range c.uc.length).foldl (contractionStep c (median c.uc)) ⟨none, []⟩)

/-- Models `self.contractions`, cached at construction in the source; recomputing it
is observationally identical because the arrays are immutable. -/
def Component.contractions (c : Component) : List (ℚ × ℚ × ℚ) := get_contractions c

/-- Models `Component.calculate_fhr_baseline`: median FHR. -/
def calculate_fhr_baseline (c : Component) : ℚ := median c.fhr

/-- The inner `while` of `_detect_accelerations` / `_detect_decelerations`:
advance `j` while `j < n` and the point-wise criterion holds. The fuel
argument only bounds the recursion; `fuel = n` always suffices since `j`
increases up to `n`. -/
def scanEnd (crit : ℕ → Bool) (n : ℕ) : ℕ → ℕ → ℕ
  | 0, j => j
  | fuel + 1, j => if j < n ∧ crit j then scanEnd crit n fuel (j + 1) else j

/-- Body executed by the detection loop at an index `i` that is not skipped:
if the criterion holds at `i`, find the run end `j`, then accept the interval
`(t i, t (j-1))` exactly when its duration lies in `[mind, maxd)`, updating
`last_end_time`; otherwise leave the state unchanged.  (The source's
`i = j - 1` write is dead: Python `for` rebinds `i` from `range` on the next
iteration, so the loop always advances by one.) -/
def detectBody (t : ℕ → ℚ) (crit : ℕ → Bool) (n : ℕ) (mind maxd : ℚ)
    (lastEnd : Option ℚ) (acc : List (ℚ × ℚ)) (i : ℕ) : Option ℚ × List (ℚ × ℚ) :=
  if crit i then
    if mind ≤ t (scanEnd crit n n (i + 1) - 1) - t i ∧
        t (scanEnd crit n n (i + 1) - 1) - t i < maxd then
      (some (t (scanEnd crit n n (i + 1) - 1)), acc ++ [(t i, t (scanEnd crit n n (i + 1) - 1))])
    else (lastEnd, acc)
  else (lastEnd, acc)

/-- One iteration of the detection loop: skip indices whose time is before
`last_end_time` (`none` models the initial `-inf`). -/
def detectStep (t : ℕ → ℚ) (crit : ℕ → Bool) (n : ℕ) (mind maxd : ℚ)
    (st : Option ℚ × List (ℚ × ℚ)) (i : ℕ) : Option ℚ × List (ℚ × ℚ) :=
  match st with
  | (some L, acc) =>
      if t i < L then (some L, acc) else detectBody t crit n mind maxd (some L) acc i
  | (none, acc) => detectBody t crit n mind maxd none acc i

/-- The shared shape of `_detect_accelerations` and `_detect_decelerations`:
`for i in range(n - 1)` over `detectStep`, returning the accepted intervals. -/
def detectScan (t : ℕ → ℚ) (crit : ℕ → Bool) (n : ℕ) (mind maxd : ℚ) : List (ℚ × ℚ) :=
  ((List.range (n - 1)).foldl (detectStep t crit n mind maxd) (none, [])).2

/-- Models `Component._detect_accelerations` at the default configuration
(`threshold_high = 160`, `min_duration = 15`, `max_duration = 120`,
`min_amplitude = 15`), the only configuration the program calls it with. -/
def detect_accelerations (c : Component) : List (ℚ × ℚ) :=
  detectScan (tAt c)
    (fun i => decide (fAt c i > 160 ∧ fAt c i - median c.fhr ≥ 15))
    c.fhr.length 15 120

/-- Models `Component._detect_decelerations` at the default configuration
(`threshold_low = 110`, `min_duration = 15`, `max_duration = 120`,
`min_amplitude = 15`). -/
def detect_decelerations (c : Component) : List (ℚ × ℚ) :=
  detectScan (tAt c)
    (fun i => decide (fAt c i < 110 ∧ median c.fhr - fAt c i ≥ 15))
    c.fhr.length 15 120

/-- Modelled from the spec (§4.3 step 4) for refinement comparison only: the
cursor-based detector that advances past every scanned run whether or not it
was accepted, so rejected runs are never re-entered.  `fuel = n` suffices
because the cursor strictly increases. -/
def detectSpecGo (t : ℕ → ℚ) (crit : ℕ → Bool) (n : ℕ) (mind maxd : ℚ) :
    ℕ → ℕ → List (ℚ × ℚ)
  | 0, _ => []
  | fuel + 1, i =>
    if i < n then
      if crit i then
        let j := scanEnd crit n n (i + 1)
        (if mind ≤ t (j - 1) - t i ∧ t (j - 1) - t i < maxd then [(t i, t (j - 1))] else [])
          ++ detectSpecGo t crit n mind maxd fuel j
      else detectSpecGo t crit n mind maxd fuel (i + 1)
    else []

/-- Modelled from the spec: acceleration detection with the spec's
"advance the cursor past the run regardless of acceptance" semantics. -/
def detect_accelerations_spec (c : Component) : List (ℚ × ℚ) :=
  detectSpecGo (tAt c)
    (fun i => decide (fAt c i > 160 ∧ fAt c i - median c.fhr ≥ 15))
    c.fhr.length 15 120 c.fhr.length 0

/-- Inner loop of `_detect_early_decelerations` for one deceleration
`(ds, de)`: scan contractions in order; at the first one that overlaps and
has `ds ≤ peak`, append the deceleration and break; any other contraction
(overlapping or not) is passed over and the scan continues. -/
def earlyLoop (contractions : List (ℚ × ℚ × ℚ)) (ds de : ℚ) (acc : List (ℚ × ℚ)) :
    List (ℚ × ℚ) :=
  match contractions with
  | [] => acc
  | (cs, cp, ce) :: rest =>
      if ds ≤ ce ∧ de ≥ cs then
        if ds ≤ cp then acc ++ [(ds, de)] else earlyLoop rest ds de acc
      else earlyLoop rest ds de acc

/-- Inner loop of `_detect_late_decelerations`, mirror image of `earlyLoop`
with the `ds > peak` test. -/
def lateLoop (contractions : List (ℚ × ℚ × ℚ)) (ds de : ℚ) (acc : List (ℚ × ℚ)) :
    List (ℚ × ℚ) :=
  match contractions with
  | [] => acc
  | (cs, cp, ce) :: rest =>
      if ds ≤ ce ∧ de ≥ cs then
        if ds > cp then acc ++ [(ds, de)] else lateLoop rest ds de acc
      else lateLoop rest ds de acc

/-- Models `Component._detect_early_decelerations`. -/
def detect_early_decelerations (c : Component) (regions : List (ℚ × ℚ)) : List (ℚ × ℚ) :=
  regions.foldl (fun acc p => earlyLoop c.contractions p.1 p.2 acc) []

/-- Models `Component._detect_late_decelerations`. -/
def detect_late_decelerations (c : Component) (regions : List (ℚ × ℚ)) : List (ℚ × ℚ) :=
  regions.foldl (fun acc p => lateLoop c.contractions p.1 p.2 acc) []

/-- Models `Component.calculate_short_term_variability`: convert every FHR sample to
`60000 / bpm` with no exclusion of non-positive samples, then take the mean of
absolute consecutive differences.  (A zero sample makes numpy emit a division
warning and a non-finite value rather than raising; no claim here evaluates
this definition at a zero sample, where `ℚ` and float semantics part ways.) -/
def calculate_short_term_variability (c : Component) : ℚ :=
  meanList ((diffList (c.fhr.map (fun bpm => 60000 / bpm))).map (fun d => |d|))

/-- Modelled from the spec (§4.5): short-term variability with non-positive
bpm samples excluded before conversion, the contract the spec states for the
source's `calculate_short_term_variability`; defined only to compare against
the source computation. -/
def stv_spec_excluding (c : Component) : ℚ :=
  meanList ((diffList ((c.fhr.filter (fun bpm => decide (0 < bpm))).map
    (fun bpm => 60000 / bpm))).map (fun d => |d|))

/-- Models `Component._assess_baseline`. -/
def assess_baseline (baseline : ℚ) : String :=
  if 110 ≤ baseline ∧ baseline ≤ 160 then "Normal"
  else if baseline < 110 then "Bradycardia"
  else "Tachycardia"

/-- Models `Component._assess_variability`. -/
def assess_variability (short_term_var long_term_var : ℚ) : String :=
  if short_term_var < 5 then "Low / Possible fetal distress"
  else if short_term_var > 20 then "High / Severe stress"
  else if long_term_var < 10 then "Low / Possible fetal distress"
  else if long_term_var > 25 then "High / Possible acute stress"
  else "Good Variability"

/-- Models `Component._assess_accelerations`: despite its docstring mentioning late
accelerations, the source takes a single boolean and returns one of two
strings. -/
def assess_accelerations (has_accelerations : Bool) : String :=
  if has_accelerations then "Normal Accelerations" else "Absent Accelerations"

/-- Models `Component._assess_decelerations`. -/
def assess_decelerations (has_decelerations has_early has_late : Bool) : String :=
  if !has_decelerations then "No Decelerations"
  else if has_early then "Early Decelerations - Head Compressions Detected"
  else if has_late then "Variable Decelerations - Fetal Hypoxia Detected"
  else "Concerning Decelerations"

/-- The `concerning_factors` count of `Component._combine_assessments`. -/
def concern_count (b v a d : String) : ℕ :=
  ([b != "Normal", v == "Reduced Variability",
    a == "Concerning Late Accelerations", d != "No Decelerations"] : List Bool).count true

/-- Models `Component._combine_assessments`. -/
def combine_assessments (b v a d : String) : String :=
  if concern_count b v a d = 0 then "Normal Fetal Condition"
  else if concern_count b v a d ≤ 1 then "Mild Concerns"
  else if concern_count b v a d ≤ 3 then "Moderate Concerns"
  else "Significant Concerns"

/-- The analysis dictionary built by `Component.get_analysis_results` (the
fields `diagnose_condition` reads).  `stv`/`ltv` are the values under
`'Short Term Variability'` and `'Long Term Variability'`. -/
structure AnalysisResults where
  fhrBaseline : ℚ
  stv : ℚ
  ltv : ℚ
  accels : Bool
  decels : Bool
  earlyDecels : Bool
  lateDecels : Bool

/-- The dictionary returned by `Component.diagnose_condition`. -/
structure Diagnosis where
  baseline : String
  variability : String
  accelerations : String
  decelerations : String
  overall : String

/-- Models `Component.diagnose_condition`: note it recomputes the baseline from the
component and reads the rest from the analysis results. -/
def diagnose_condition (c : Component) (ar : AnalysisResults) : Diagnosis :=
  let baseline_status := assess_baseline (calculate_fhr_baseline c)
  let variability_status := assess_variability ar.stv ar.ltv
  let acceleration_status := assess_accelerations ar.accels
  let deceleration_status := assess_decelerations ar.decels ar.earlyDecels ar.lateDecels
  ⟨baseline_status, variability_status, acceleration_status, deceleration_status,
    combine_assessments baseline_status variability_status acceleration_status
      deceleration_status⟩

/-- The analysis dictionary of `Component.get_analysis_results`, with the two
variability numbers taken as parameters: the source's long-term variability is
a mean of numpy standard deviations (a square root, not representable in `ℚ`),
and no claim settled here depends on either number, so they are universally
quantified where used.  The four event-presence booleans are `len(...) > 0`
of the detected lists, wired exactly as in `detect_events`. -/
def analysisResults (c : Component) (stv ltv : ℚ) : AnalysisResults :=
  { fhrBaseline := calculate_fhr_baseline c
    stv := stv
    ltv := ltv
    accels := decide (0 < (detect_accelerations c).length)
    decels := decide (0 < (detect_decelerations c).length)
    earlyDecels := decide (0 < (detect_early_decelerations c (detect_decelerations c)).length)
    lateDecels := decide (0 < (detect_late_decelerations c (detect_decelerations c)).length) }

/-- One parsed CSV row: `time`, `FHR`, `UC`. -/
structure Row where
  t : ℚ
  fhr : ℚ
  uc : ℚ
  deriving DecidableEq

/-- Models `Signal._estimate_sampling_rate`: reciprocal of the median of consecutive
timestamp differences, with no validation of the median's sign. -/
def estimate_sampling_rate (data : List Row) : ℚ :=
  1 / median (diffList (data.map Row.t))

/-- Python `int(...)` on a float/rational: truncation toward zero, i.e.
T-division of the numerator by the denominator. -/
def pyTrunc (q : ℚ) : ℤ := Int.tdiv q.num q.den

/-- The window walk `for i in range(0, len(data), k)` producing the slices
`data[i:i+k]`; fuel-bounded (`fuel = data.length` suffices for `k > 0`). -/
def windowChunks (k : ℕ) : ℕ → List Row → List (List Row)
  | 0, _ => []
  | _, [] => []
  | fuel + 1, l => l.take k :: windowChunks k fuel (l.drop k)

/-- Building a `Component` from a kept window's three columns. -/
def mkComponent (rows : List Row) : Component :=
  ⟨rows.map Row.t, rows.map Row.fhr, rows.map Row.uc⟩

/-- Models `Signal._create_components`: keep only windows with the full
`samples_per_component = int(component_duration * sampling_rate)` rows.
For a negative step Python's `range(0, len, k)` is empty, hence `[]`;
the source raises `ValueError` for `k = 0`, a case no claim touches. -/
def create_components (data : List Row) (component_duration sampling_rate : ℚ) :
    List Component :=
  let k := pyTrunc (component_duration * sampling_rate)
  if k ≤ 0 then []
  else ((windowChunks k.toNat data.length data).filter
    (fun w => w.length = k.toNat)).map mkComponent

/-- Models `Signal.__init__`: the components of a loaded signal.  The constructor
calls `self._create_components(1000)`, not the function's default of 120. -/
def signal_components (data : List Row) : List Component :=
  create_components data 1000 (estimate_sampling_rate data)

/-- Every Segment kept by `Signal.__init__` has exactly
`int(1000 * sampling_rate)` rows in each of its three columns. -/
def SegmentsFullLength (data : List Row) : Prop :=
  ∀ comp ∈ signal_components data,
    comp.time.length = (pyTrunc (1000 * estimate_sampling_rate data)).toNat ∧
    comp.fhr.length = (pyTrunc (1000 * estimate_sampling_rate data)).toNat ∧
    comp.uc.length = (pyTrunc (1000 * estimate_sampling_rate data)).toNat

-- Concrete components and row data used by the counterexamples and witnesses.

def c1c : Component :=
  ⟨[0, 10, 100, 130, 140, 150, 160, 170, 180],
   [180, 180, 180, 180, 100, 100, 100, 100, 100],
   [0, 0, 0, 0, 0, 0, 0, 0, 0]⟩

def c2c : Component :=
  ⟨(List.range 40).map (fun i => (i : ℚ)),
   (List.range 40).map (fun i => if 10 ≤ i ∧ i ≤ 25 then (90 : ℚ) else 140),
   (List.range 40).map (fun i =>
     if i = 5 then (1 : ℚ) else if i = 6 then 2 else if i = 7 then 3
     else if i = 8 then 2 else if i = 9 then 2 else if i = 10 then 1
     else if i = 13 then 1 else if i = 14 then 2 else if i = 15 then 2
     else if i = 16 then 4 else if i = 17 then 3 else if i = 18 then 2
     else if i = 19 then 1 else 0)⟩

def c5c : Component := ⟨[0, 1, 2, 3, 4], [140, 140, 140, 140, 140], [0, 0, 1, 2, 3]⟩

def c8c : Component := ⟨[0, 1, 2], [-100, 100, 150], [0, 0, 0]⟩

def c8w : Component := ⟨[0, 1], [100, 150], [0, 0]⟩

def data10 : List Row := (List.range 10).map (fun i => ⟨(i : ℚ) * 100, 140, 0⟩)

def dataNeg : List Row := [⟨0, 140, 0⟩, ⟨-1, 140, 0⟩, ⟨-2, 140, 0⟩]

/-- The invariant every detection result list satisfies at the default
configuration: positive-length intervals with duration in `[15, 120)`,
pairwise non-overlapping (earlier end at or before later start) and strictly
sorted by start time. -/
def EventListOk (l : List (ℚ × ℚ)) : Prop :=
  (∀ p ∈ l, p.1 < p.2 ∧ 15 ≤ p.2 - p.1 ∧ p.2 - p.1 < 120) ∧
  List.Pairwise (fun x y : ℚ × ℚ => x.2 ≤ y.1 ∧ x.1 < y.1) l

/-- Loop invariant of the detection scan: all accepted intervals satisfy the
duration bounds, are pairwise ordered and non-overlapping, all end at or
before `last_end_time` when it is set, and nothing was accepted before it was
first set. -/
def DetectInv (mind maxd : ℚ) (st : Option ℚ × List (ℚ × ℚ)) : Prop :=
  (∀ p ∈ st.2, mind ≤ p.2 - p.1 ∧ p.2 - p.1 < maxd) ∧
  List.Pairwise (fun x y : ℚ × ℚ => x.2 ≤ y.1 ∧ x.1 < y.1) st.2 ∧
  (∀ L, st.1 = some L → ∀ p ∈ st.2, p.2 ≤ L) ∧
  (st.1 = none → st.2 = [])

/-- The invariant every contraction list satisfies: start strictly before
peak, peak at or before end (equality only possible for the final
end-of-signal closure), pairwise non-overlapping and strictly sorted by
start time. -/
def ContractionListOk (l : List (ℚ × ℚ × ℚ)) : Prop :=
  (∀ p ∈ l, p.1 < p.2.1 ∧ p.2.1 ≤ p.2.2) ∧
  List.Pairwise (fun x y : ℚ × ℚ × ℚ => x.2.2 ≤ y.1 ∧ x.1 < y.1) l

/-- The part of the contraction-scan invariant about the open contraction:
while inside one, the peak time is the timestamp of an already-scanned index,
the start is at or before the peak, and every recorded contraction ends at or
before the start. -/
def InCOk (c : Component) (i : ℕ) (st : ContractionState) : Prop :=
  match st.inC with
  | none => True
  | some (s, _, pt) =>
      (∃ k, k < i ∧ k < c.uc.length ∧ pt = tAt c k) ∧ s ≤ pt ∧
      ∀ p ∈ st.found, p.2.2 ≤ s

/-- Loop invariant of the contraction scan after the first `i` samples:
recorded triples are strictly ordered internally, pairwise non-overlapping
and sorted, each ends at an already-scanned timestamp, and the open
contraction (if any) satisfies `InCOk`. -/
def ContractionInv (c : Component) (i : ℕ) (st : ContractionState) : Prop :=
  (∀ p ∈ st.found, p.1 < p.2.1 ∧ p.2.1 < p.2.2) ∧
  List.Pairwise (fun x y : ℚ × ℚ × ℚ => x.2.2 ≤ y.1 ∧ x.1 < y.1) st.found ∧
  (∀ p ∈ st.found, ∃ k, k < i ∧ k < c.uc.length ∧ p.2.2 ≤ tAt c k) ∧
  InCOk c i st

/-- Whether some contraction in the list overlaps `(ds, de)` and has
`ds ≤ peak`: the membership test realized by `earlyLoop`. -/
def hasEarlyMatch (l : List (ℚ × ℚ × ℚ)) (ds de : ℚ) : Bool :=
  l.any fun x => decide ((ds ≤ x.2.2 ∧ de ≥ x.1) ∧ ds ≤ x.2.1)

/-- Whether some contraction in the list overlaps `(ds, de)` and has
`ds > peak`: the membership test realized by `lateLoop`. -/
def hasLateMatch (l : List (ℚ × ℚ × ℚ)) (ds de : ℚ) : Bool :=
  l.any fun x => decide ((ds ≤ x.2.2 ∧ de ≥ x.1) ∧ ds > x.2.1)

-- ===== helper lemmas =====

lemma foldl_range_inv {σ : Type} (step : σ → ℕ → σ) (P : ℕ → σ → Prop) :
    ∀ (n : ℕ) (s : σ), P 0 s → (∀ i u, i < n → P i u → P (i + 1) (step u i)) →
      P n ((List.range n).foldl step s) := by
  intro n
  induction n with
  | zero => intro s h0 _; simpa using h0
  | succ m ih =>
    intro s h0 hstep
    rw [List.range_succ, List.foldl_append, List.foldl_cons, List.foldl_nil]
    exact hstep m _ (Nat.lt_succ_self m)
      (ih s h0 (fun i u hi hu => hstep i u (Nat.lt_succ_of_lt hi) hu))

lemma detectBody_inv {t : ℕ → ℚ} {crit : ℕ → Bool} {n : ℕ} {mind maxd : ℚ}
    (hm : 0 < mind) {lastEnd : Option ℚ} {acc : List (ℚ × ℚ)} {i : ℕ}
    (hInv : DetectInv mind maxd (lastEnd, acc))
    (hle : ∀ L, lastEnd = some L → L ≤ t i) :
    DetectInv mind maxd (detectBody t crit n mind maxd lastEnd acc i) := by
  obtain ⟨hdur, hpw, hlast, hnone⟩ := hInv
  unfold detectBody
  split_ifs with hc hd
  · obtain ⟨hd1, hd2⟩ := hd
    have hends : ∀ p ∈ acc, p.2 ≤ t i := by
      intro p hp
      cases lastEnd with
      | none =>
        have hacc : acc = [] := hnone rfl
        rw [hacc] at hp
        exact absurd hp (List.not_mem_nil p)
      | some L => exact le_trans (hlast L rfl p hp) (hle L rfl)
    have hti : t i < t (scanEnd crit n n (i + 1) - 1) := by linarith
    refine ⟨?_, ?_, ?_, ?_⟩
    · intro p hp
      rcases List.mem_append.mp hp with h | h
      · exact hdur p h
      · rw [List.mem_singleton] at h; subst h; exact ⟨hd1, hd2⟩
    · refine List.pairwise_append.mpr ⟨hpw, List.pairwise_singleton _ _, ?_⟩
      intro a ha b hb
      rw [List.mem_singleton] at hb; subst hb
      have h1 : a.2 ≤ t i := hends a ha
      have h2 : mind ≤ a.2 - a.1 := (hdur a ha).1
      exact ⟨h1, by linarith⟩
    · intro L hL p hp
      injection hL with hL
      subst hL
      rcases List.mem_append.mp hp with h | h
      · exact le_trans (hends p h) (le_of_lt hti)
      · rw [List.mem_singleton] at h; subst h; exact le_refl _
    · intro h; cases h
  · exact ⟨hdur, hpw, hlast, hnone⟩
  · exact ⟨hdur, hpw, hlast, hnone⟩

lemma detectStep_inv {t : ℕ → ℚ} {crit : ℕ → Bool} {n : ℕ} {mind maxd : ℚ}
    (hm : 0 < mind) (st : Option ℚ × List (ℚ × ℚ)) (i : ℕ)
    (h : DetectInv mind maxd st) :
    DetectInv mind maxd (detectStep t crit n mind maxd st i) := by
  obtain ⟨le, acc⟩ := st
  cases le with
  | none => exact detectBody_inv hm h (fun L hL => by cases hL)
  | some L =>
    simp only [detectStep]
    split_ifs with hti
    · exact h
    · exact detectBody_inv hm h
        (fun L' hL' => by injection hL' with e; subst e; exact not_lt.mp hti)

lemma detectInv_nil (mind maxd : ℚ) : DetectInv mind maxd (none, []) := by
  unfold DetectInv
  refine ⟨?_, List.Pairwise.nil, ?_, fun _ => rfl⟩
  · intro p hp; exact absurd hp (List.not_mem_nil p)
  · intro L hL p hp; exact absurd hp (List.not_mem_nil p)

lemma detectScan_inv (t : ℕ → ℚ) (crit : ℕ → Bool) (n : ℕ) (mind maxd : ℚ)
    (hm : 0 < mind) :
    DetectInv mind maxd
      ((List.range (n - 1)).foldl (detectStep t crit n mind maxd) (none, [])) := by
  refine foldl_range_inv _ (fun _ s => DetectInv mind maxd s) (n - 1) _ ?_ ?_
  · exact detectInv_nil mind maxd
  · exact fun i s _ hs => detectStep_inv hm s i hs

lemma detectScan_eventListOk (t : ℕ → ℚ) (crit : ℕ → Bool) (n : ℕ) :
    EventListOk (detectScan t crit n 15 120) := by
  obtain ⟨hdur, hpw, -, -⟩ := detectScan_inv t crit n 15 120 (by norm_num)
  refine ⟨?_, hpw⟩
  intro p hp
  have h := hdur p hp
  exact ⟨by linarith [h.1], h⟩

-- ===== claim theorems =====

/-- C1: the source intends to advance the cursor past a scanned run whether
or not it was accepted (its `i = j - 1` line and comment), but rebinding the
`for` variable is a no-op in Python, so a rejected run is re-scanned from its
next sample.  On this input the run `[0, 130]` (duration `130 ≥ 120`) is
scanned first and rejected, yet the code then emits its sub-run
`(100, 130)`; the spec's cursor semantics emits nothing. -/
theorem accel_rejected_run_is_rescanned :
    detect_accelerations c1c = [(100, 130)] ∧ detect_accelerations_spec c1c = [] :=
  ⟨by decide, by decide⟩

/-- C7: for every component, both detection results at the configured
defaults consist of intervals with `start < end` and duration in `[15, 120)`,
strictly sorted by start time and mutually non-overlapping. -/
theorem event_lists_sorted_nonoverlapping_duration_bounded (c : Component) :
    EventListOk (detect_accelerations c) ∧ EventListOk (detect_decelerations c) :=
  ⟨detectScan_eventListOk _ _ _, detectScan_eventListOk _ _ _⟩

lemma hasEarlyMatch_cons_false {ds de cs cp ce : ℚ} (rest : List (ℚ × ℚ × ℚ))
    (h : ¬((ds ≤ ce ∧ de ≥ cs) ∧ ds ≤ cp)) :
    hasEarlyMatch ((cs, cp, ce) :: rest) ds de = hasEarlyMatch rest ds de := by
  unfold hasEarlyMatch
  rw [List.any_cons, decide_eq_false h, Bool.false_or]

lemma hasEarlyMatch_cons_true {ds de cs cp ce : ℚ} (rest : List (ℚ × ℚ × ℚ))
    (h : (ds ≤ ce ∧ de ≥ cs) ∧ ds ≤ cp) :
    hasEarlyMatch ((cs, cp, ce) :: rest) ds de = true := by
  unfold hasEarlyMatch
  rw [List.any_cons, decide_eq_true h, Bool.true_or]

lemma hasLateMatch_cons_false {ds de cs cp ce : ℚ} (rest : List (ℚ × ℚ × ℚ))
    (h : ¬((ds ≤ ce ∧ de ≥ cs) ∧ ds > cp)) :
    hasLateMatch ((cs, cp, ce) :: rest) ds de = hasLateMatch rest ds de := by
  unfold hasLateMatch
  rw [List.any_cons, decide_eq_false h, Bool.false_or]

lemma hasLateMatch_cons_true {ds de cs cp ce : ℚ} (rest : List (ℚ × ℚ × ℚ))
    (h : (ds ≤ ce ∧ de ≥ cs) ∧ ds > cp) :
    hasLateMatch ((cs, cp, ce) :: rest) ds de = true := by
  unfold hasLateMatch
  rw [List.any_cons, decide_eq_true h, Bool.true_or]

lemma earlyLoop_eq (ds de : ℚ) :
    ∀ (l : List (ℚ × ℚ × ℚ)) (acc : List (ℚ × ℚ)),
      earlyLoop l ds de acc = acc ++ (if hasEarlyMatch l ds de then [(ds, de)] else []) := by
  intro l
  induction l with
  | nil => intro acc; simp [earlyLoop, hasEarlyMatch]
  | cons x rest ih =>
    intro acc
    obtain ⟨cs, cp, ce⟩ := x
    by_cases h1 : ds ≤ ce ∧ de ≥ cs
    · by_cases h2 : ds ≤ cp
      · rw [hasEarlyMatch_cons_true rest ⟨h1, h2⟩]
        simp [earlyLoop, if_pos h1, if_pos h2]
      · rw [hasEarlyMatch_cons_false rest (fun hh => h2 hh.2)]
        simp only [earlyLoop, if_pos h1, if_neg h2]
        exact ih acc
    · rw [hasEarlyMatch_cons_false rest (fun hh => h1 hh.1)]
      simp only [earlyLoop, if_neg h1]
      exact ih acc

lemma lateLoop_eq (ds de : ℚ) :
    ∀ (l : List (ℚ × ℚ × ℚ)) (acc : List (ℚ × ℚ)),
      lateLoop l ds de acc = acc ++ (if hasLateMatch l ds de then [(ds, de)] else []) := by
  intro l
  induction l with
  | nil => intro acc; simp [lateLoop, hasLateMatch]
  | cons x rest ih =>
    intro acc
    obtain ⟨cs, cp, ce⟩ := x
    by_cases h1 : ds ≤ ce ∧ de ≥ cs
    · by_cases h2 : ds > cp
      · rw [hasLateMatch_cons_true rest ⟨h1, h2⟩]
        simp [lateLoop, if_pos h1, if_pos h2]
      · rw [hasLateMatch_cons_false rest (fun hh => h2 hh.2)]
        simp only [lateLoop, if_pos h1, if_neg h2]
        exact ih acc
    · rw [hasLateMatch_cons_false rest (fun hh => h1 hh.1)]
      simp only [lateLoop, if_neg h1]
      exact ih acc

lemma detect_early_eq_filter (c : Component) (regions : List (ℚ × ℚ)) :
    detect_early_decelerations c regions =
      regions.filter (fun p => hasEarlyMatch c.contractions p.1 p.2) := by
  suffices h : ∀ (rs : List (ℚ × ℚ)) (acc : List (ℚ × ℚ)),
      rs.foldl (fun a p => earlyLoop c.contractions p.1 p.2 a) acc =
        acc ++ rs.filter (fun p => hasEarlyMatch c.contractions p.1 p.2) by
    simpa [detect_early_decelerations] using h regions []
  intro rs
  induction rs with
  | nil => intro acc; simp
  | cons r rest ih =>
    intro acc
    rw [List.foldl_cons, ih, earlyLoop_eq]
    by_cases hb : hasEarlyMatch c.contractions r.1 r.2
    · simp [List.filter_cons, hb, List.append_assoc]
    · simp [List.filter_cons, hb]

lemma detect_late_eq_filter (c : Component) (regions : List (ℚ × ℚ)) :
    detect_late_decelerations c regions =
      regions.filter (fun p => hasLateMatch c.contractions p.1 p.2) := by
  suffices h : ∀ (rs : List (ℚ × ℚ)) (acc : List (ℚ × ℚ)),
      rs.foldl (fun a p => lateLoop c.contractions p.1 p.2 a) acc =
        acc ++ rs.filter (fun p => hasLateMatch c.contractions p.1 p.2) by
    simpa [detect_late_decelerations] using h regions []
  intro rs
  induction rs with
  | nil => intro acc; simp
  | cons r rest ih =>
    intro acc
    rw [List.foldl_cons, ih, lateLoop_eq]
    by_cases hb : hasLateMatch c.contractions r.1 r.2
    · simp [List.filter_cons, hb, List.append_assoc]
    · simp [List.filter_cons, hb]

/-- C2 counterexample: on this component the only detected deceleration
`(10, 25)` overlaps contraction `(5, 7, 11)` starting after its peak (so it
is appended to the late list) and also overlaps contraction `(13, 16, 20)`
starting at or before its peak (so it is appended to the early list): the
two output lists are not disjoint. -/
theorem early_late_not_disjoint_cex :
    ((10 : ℚ), (25 : ℚ)) ∈ detect_early_decelerations c2c (detect_decelerations c2c) ∧
    ((10 : ℚ), (25 : ℚ)) ∈ detect_late_decelerations c2c (detect_decelerations c2c) :=
  ⟨by decide, by decide⟩

/-- C2 amended: both classified lists are subsets of the input deceleration
list (each element is appended from a scan of that list), but disjointness
fails in general, as the counterexample shows. -/
theorem early_late_subsets_of_decelerations (c : Component) (regions : List (ℚ × ℚ)) :
    detect_early_decelerations c regions ⊆ regions ∧
    detect_late_decelerations c regions ⊆ regions := by
  constructor
  · rw [detect_early_eq_filter]; exact (List.filter_sublist _).subset
  · rw [detect_late_eq_filter]; exact (List.filter_sublist _).subset

/-- C3 counterexample: for the deceleration `(10, 25)` of this component the
first contraction triple in order whose range overlaps it is `(5, 7, 11)`
(since `10 ≤ 11` and `5 ≤ 25`), and `10 ≤ 7` fails, so under the claim the
deceleration would be classified late and the early scan would stop there;
yet the code's early list contains it (via the second contraction), because
the scan only stops at a contraction that matches the list's own test. -/
theorem first_overlap_not_decisive_cex :
    get_contractions c2c = [(5, 7, 11), (13, 16, 20)] ∧
    detect_decelerations c2c = [(10, 25)] ∧
    ((10 : ℚ) ≤ 11 ∧ (5 : ℚ) ≤ 25) ∧ ¬((10 : ℚ) ≤ 7) ∧
    ((10 : ℚ), (25 : ℚ)) ∈ detect_early_decelerations c2c (detect_decelerations c2c) :=
  ⟨by decide, by decide, by decide, by decide, by decide⟩

/-- C3 amended: a deceleration is emitted by the early (resp. late) detector
iff it lies in the input list and some contraction overlaps it with
`ds ≤ peak` (resp. `ds > peak`); the scan of contractions does not stop at
the first overlap, only at the first overlap satisfying the detector's own
peak test. -/
theorem early_late_membership_characterization (c : Component)
    (regions : List (ℚ × ℚ)) (q : ℚ × ℚ) :
    (q ∈ detect_early_decelerations c regions ↔
      q ∈ regions ∧ ∃ x ∈ c.contractions, (q.1 ≤ x.2.2 ∧ x.1 ≤ q.2) ∧ q.1 ≤ x.2.1) ∧
    (q ∈ detect_late_decelerations c regions ↔
      q ∈ regions ∧ ∃ x ∈ c.contractions, (q.1 ≤ x.2.2 ∧ x.1 ≤ q.2) ∧ x.2.1 < q.1) := by
  constructor
  · rw [detect_early_eq_filter, List.mem_filter]
    simp [hasEarlyMatch, List.any_eq_true]
  · rw [detect_late_eq_filter, List.mem_filter]
    simp [hasLateMatch, List.any_eq_true]

lemma assess_variability_ne_reduced (stv ltv : ℚ) :
    (assess_variability stv ltv == "Reduced Variability") = false := by
  unfold assess_variability
  split_ifs <;> rfl

/-- C4 counterexample: with a normal baseline, no events, and `STV = 3 < 5`
the variability status is in the low class, so the claim's mapping counts one
concerning factor and yields "Mild Concerns"; the code compares the status
against "Reduced Variability", which `_assess_variability` never returns, and
yields "Normal Fetal Condition". -/
theorem low_variability_not_counted_cex :
    assess_variability 3 15 = "Low / Possible fetal distress" ∧
    combine_assessments "Normal" (assess_variability 3 15) "Absent Accelerations"
      "No Decelerations" = "Normal Fetal Condition" ∧
    ("Normal Fetal Condition" : String) ≠ "Mild Concerns" :=
  ⟨by decide, by decide, by decide⟩

/-- C4 amended: because `_assess_variability` never returns
"Reduced Variability", the variability factor never counts: the overall
verdict is the mapping of the count of the remaining three factors
(0 → Normal, 1 → Mild, 2-3 → Moderate; a count of 4, hence
"Significant Concerns", is unreachable through assessed statuses). -/
theorem overall_verdict_ignores_assessed_variability (b a d : String) (stv ltv : ℚ) :
    combine_assessments b (assess_variability stv ltv) a d =
      (if ([b != "Normal", a == "Concerning Late Accelerations",
            d != "No Decelerations"] : List Bool).count true = 0 then "Normal Fetal Condition"
       else if ([b != "Normal", a == "Concerning Late Accelerations",
            d != "No Decelerations"] : List Bool).count true ≤ 1 then "Mild Concerns"
       else "Moderate Concerns") := by
  have hv := assess_variability_ne_reduced stv ltv
  cases hb : (b != "Normal") <;>
    cases ha : (a == "Concerning Late Accelerations") <;>
      cases hd : (d != "No Decelerations") <;>
        simp [combine_assessments, concern_count, hv, hb, ha, hd, List.count_cons]

/-- C10 counterexample: `_assess_accelerations` takes only the presence
boolean and returns one of exactly two strings, so no input — in particular
none with late accelerations present — produces
"Concerning Late Accelerations". -/
theorem concerning_late_accelerations_never_produced_cex :
    assess_accelerations true ≠ "Concerning Late Accelerations" ∧
    assess_accelerations false ≠ "Concerning Late Accelerations" :=
  ⟨by decide, by decide⟩

/-- C10 amended: the acceleration status of a diagnosis is
"Normal Accelerations" exactly when the detected acceleration list is
non-empty and "Absent Accelerations" otherwise, and it is never
"Concerning Late Accelerations" (late accelerations are not tracked at all). -/
theorem acceleration_status_binary (c : Component) (stv ltv : ℚ) :
    (diagnose_condition c (analysisResults c stv ltv)).accelerations =
      (if (detect_accelerations c).length = 0 then "Absent Accelerations"
       else "Normal Accelerations") ∧
    (diagnose_condition c (analysisResults c stv ltv)).accelerations ≠
      "Concerning Late Accelerations" := by
  have h1 : (diagnose_condition c (analysisResults c stv ltv)).accelerations =
      assess_accelerations (decide (0 < (detect_accelerations c).length)) := rfl
  by_cases h : (detect_accelerations c).length = 0
  · rw [h1]
    constructor
    · simp [h, assess_accelerations]
    · simp [h, assess_accelerations]
  · have h' : 0 < (detect_accelerations c).length := Nat.pos_of_ne_zero h
    rw [h1]
    constructor
    · simp [h, h', assess_accelerations]
    · simp [h', assess_accelerations]

lemma filter_pos_eq_self {l : List ℚ} (h : ∀ x ∈ l, 0 < x) :
    l.filter (fun bpm => decide (0 < bpm)) = l :=
  List.filter_eq_self.mpr (fun a ha => decide_eq_true (h a ha))

/-- C8 counterexample: with the negative sample `-100` present (well-defined
under both float and rational semantics, unlike a zero sample), the source
converts it like any other sample — the proxies are `[-600, 600, 400]` and
the STV is `700` — while the spec's computation with non-positive samples
excluded yields `200`: no exclusion is performed. -/
theorem stv_no_exclusion_cex :
    calculate_short_term_variability c8c = 700 ∧ stv_spec_excluding c8c = 200 ∧
    (700 : ℚ) ≠ 200 :=
  ⟨by decide, by decide, by decide⟩

/-- C8 amended: `calculate_short_term_variability` converts every FHR sample
without excluding non-positive ones; it agrees with the spec's excluding
computation exactly on components whose samples are all positive. -/
theorem stv_eq_spec_when_all_positive (c : Component) (h : ∀ x ∈ c.fhr, 0 < x) :
    calculate_short_term_variability c = stv_spec_excluding c := by
  unfold calculate_short_term_variability stv_spec_excluding
  rw [filter_pos_eq_self h]

/-- C8 witness: on a component with all-positive FHR the amended theorem
applies and both computations coincide. -/
theorem stv_eq_spec_when_all_positive_witness :
    calculate_short_term_variability c8w = stv_spec_excluding c8w :=
  stv_eq_spec_when_all_positive c8w (by decide)

/-- C6 counterexample: for rows spaced 100 s apart the estimated rate is
`1/100`; the claim's `samplesPerSegment = int(120 × rate) = 1` would yield
ten one-row segments, but `Signal.__init__` passes 1000, producing a single
ten-row segment. -/
theorem signal_uses_1000_not_default_cex :
    (signal_components data10).length = 1 ∧
    (create_components data10 120 (estimate_sampling_rate data10)).length = 10 ∧
    ((signal_components data10).map (fun comp => comp.time.length)) = [10] ∧
    pyTrunc (120 * estimate_sampling_rate data10) = 1 :=
  ⟨by decide, by decide, by decide, by decide⟩

/-- C6 amended: `Signal.__init__` calls `_create_components(1000)` — the
function's default of 120 is unused — and every kept Segment has exactly
`int(1000 × samplingRate)` rows in each column (short trailing windows are
discarded). -/
theorem segments_have_full_window_length (data : List Row) : SegmentsFullLength data := by
  intro comp hc
  by_cases hk : pyTrunc (1000 * estimate_sampling_rate data) ≤ 0
  · simp only [signal_components, create_components, if_pos hk] at hc
    exact absurd hc (List.not_mem_nil comp)
  · simp only [signal_components, create_components, if_neg hk] at hc
    obtain ⟨w, hw, hcomp⟩ := List.mem_map.mp hc
    have hlen : w.length = (pyTrunc (1000 * estimate_sampling_rate data)).toNat := by
      simpa using (List.mem_filter.mp hw).2
    subst hcomp
    refine ⟨?_, ?_, ?_⟩ <;> simp [mkComponent, hlen]

lemma pyTrunc_nonpos {q : ℚ} (h : q < 0) : pyTrunc q ≤ 0 := by
  unfold pyTrunc
  have hnum : q.num ≤ 0 := by
    rcases le_or_lt q.num 0 with h' | h'
    · exact h'
    · exact absurd (Rat.num_nonneg.mp (le_of_lt h')) (not_le.mpr h)
  have h1 : (0 : ℤ) ≤ -q.num := Int.neg_nonneg.mpr hnum
  have h2 : (0 : ℤ) ≤ (q.den : ℤ) := Int.natCast_nonneg q.den
  have h3 : (0 : ℤ) ≤ (-q.num).tdiv q.den := Int.tdiv_nonneg h1 h2
  have h4 : (-q.num).tdiv q.den = -(q.num.tdiv q.den) := Int.neg_tdiv q.num q.den
  rw [h4] at h3
  linarith

/-- C9 counterexample: with strictly decreasing timestamps the median of the
consecutive differences is `-1 ≤ 0`, yet nothing fails: the sampling rate is
returned as `-1` and the Signal is constructed with an empty component list —
there is no `DegenerateInputError` anywhere in the source. -/
theorem negative_median_signal_still_built_cex :
    median (diffList (dataNeg.map Row.t)) = -1 ∧
    estimate_sampling_rate dataNeg = -1 ∧
    signal_components dataNeg = [] :=
  ⟨by decide, by decide, by decide⟩

/-- C9 amended: `_estimate_sampling_rate` returns the reciprocal of the
median of consecutive timestamp differences with no validation; with a
negative median the load still succeeds, producing a negative rate and zero
Segments (Python's `range` with a negative step is empty) instead of raising
any error. -/
theorem negative_median_no_error_empty_components (data : List Row)
    (h : median (diffList (data.map Row.t)) < 0) :
    estimate_sampling_rate data < 0 ∧ signal_components data = [] := by
  have hrate : estimate_sampling_rate data < 0 := by
    show (1 : ℚ) / median (diffList (data.map Row.t)) < 0
    exact one_div_neg.mpr h
  refine ⟨hrate, ?_⟩
  have hneg : (1000 : ℚ) * estimate_sampling_rate data < 0 :=
    mul_neg_of_pos_of_neg (by norm_num) hrate
  have hk : pyTrunc (1000 * estimate_sampling_rate data) ≤ 0 := pyTrunc_nonpos hneg
  simp only [signal_components, create_components, if_pos hk]

/-- C9 witness: the decreasing-timestamp data satisfies the negative-median
hypothesis, and the amended theorem applies to it. -/
theorem negative_median_no_error_witness :
    median (diffList (dataNeg.map Row.t)) < 0 ∧
    (estimate_sampling_rate dataNeg < 0 ∧ signal_components dataNeg = []) :=
  ⟨by decide, negative_median_no_error_empty_components dataNeg (by decide)⟩

lemma contractionInv_init (c : Component) : ContractionInv c 0 ⟨none, []⟩ := by
  refine ⟨?_, List.Pairwise.nil, ?_, trivial⟩
  · intro p hp; exact absurd hp (List.not_mem_nil p)
  · intro p hp; exact absurd hp (List.not_mem_nil p)

lemma contractionStep_inv (c : Component) (baseline : ℚ)
    (hm : ∀ j, j < c.uc.length → ∀ i2, i2 ≤ j → tAt c i2 ≤ tAt c j)
    (i : ℕ) (hi : i < c.uc.length) (st : ContractionState)
    (h : ContractionInv c i st) :
    ContractionInv c (i + 1) (contractionStep c baseline st i) := by
  obtain ⟨inC, found⟩ := st
  obtain ⟨hval, hpw, hend, hin⟩ := h
  have hbump : ∀ p ∈ found, ∃ k, k < i + 1 ∧ k < c.uc.length ∧ p.2.2 ≤ tAt c k := by
    intro p hp
    obtain ⟨k, hk1, hk2, hk3⟩ := hend p hp
    exact ⟨k, Nat.lt_succ_of_lt hk1, hk2, hk3⟩
  cases inC with
  | none =>
    simp only [contractionStep]
    split_ifs with hv
    · refine ⟨hval, hpw, hbump, ?_⟩
      show (∃ k, k < i + 1 ∧ k < c.uc.length ∧ tAt c i = tAt c k) ∧
        tAt c i ≤ tAt c i ∧ ∀ p ∈ found, p.2.2 ≤ tAt c i
      refine ⟨⟨i, Nat.lt_succ_self i, hi, rfl⟩, le_refl _, ?_⟩
      intro p hp
      obtain ⟨k, hk1, hk2, hk3⟩ := hend p hp
      exact le_trans hk3 (hm i hi k (le_of_lt hk1))
    · exact ⟨hval, hpw, hbump, trivial⟩
  | some triple =>
    obtain ⟨s, pv, pt⟩ := triple
    obtain ⟨⟨k, hk1, hk2, hk3⟩, hspt, hends⟩ := hin
    have hptk : pt ≤ tAt c i := by
      rw [hk3]
      exact hm i hi k (le_of_lt hk1)
    simp only [contractionStep]
    split_ifs with hv1 hv2 hrec
    · -- peak update
      refine ⟨hval, hpw, hbump, ?_⟩
      show (∃ k2, k2 < i + 1 ∧ k2 < c.uc.length ∧ tAt c i = tAt c k2) ∧
        s ≤ tAt c i ∧ ∀ p ∈ found, p.2.2 ≤ s
      exact ⟨⟨i, Nat.lt_succ_self i, hi, rfl⟩, le_trans hspt hptk, hends⟩
    · -- close, contraction recorded
      obtain ⟨hps, htp⟩ := hrec
      refine ⟨?_, ?_, ?_, trivial⟩
      · intro p hp
        rcases List.mem_append.mp hp with hh | hh
        · exact hval p hh
        · rw [List.mem_singleton] at hh; subst hh; exact ⟨hps, htp⟩
      · refine List.pairwise_append.mpr ⟨hpw, List.pairwise_singleton _ _, ?_⟩
        intro a ha b hb
        rw [List.mem_singleton] at hb; subst hb
        have h1 : a.2.2 ≤ s := hends a ha
        have h2 := hval a ha
        exact ⟨h1, by linarith [h2.1, h2.2]⟩
      · intro p hp
        rcases List.mem_append.mp hp with hh | hh
        · exact ⟨k, Nat.lt_succ_of_lt hk1, hk2,
            le_trans (le_trans (hends p hh) hspt) (le_of_eq hk3)⟩
        · rw [List.mem_singleton] at hh; subst hh
          exact ⟨i, Nat.lt_succ_self i, hi, le_refl _⟩
    · -- close, degenerate contraction discarded
      refine ⟨hval, hpw, ?_, trivial⟩
      intro p hp
      exact ⟨k, Nat.lt_succ_of_lt hk1, hk2,
        le_trans (le_trans (hends p hp) hspt) (le_of_eq hk3)⟩
    · -- stay inside
      refine ⟨hval, hpw, hbump, ?_⟩
      show (∃ k2, k2 < i + 1 ∧ k2 < c.uc.length ∧ pt = tAt c k2) ∧
        s ≤ pt ∧ ∀ p ∈ found, p.2.2 ≤ s
      exact ⟨⟨k, Nat.lt_succ_of_lt hk1, hk2, hk3⟩, hspt, hends⟩

/-- C5 counterexample: with UC rising up to the final sample the scan is
still inside a contraction at the end of the Segment, the peak is the final
sample, and the closing rule emits `(3, 4, 4)` whose peak time equals its
end time, violating `start < peak < end`. -/
theorem contraction_peak_eq_end_cex :
    get_contractions c5c = [(3, 4, 4)] ∧ ¬((4 : ℚ) < 4) :=
  ⟨by decide, by decide⟩

/-- C5 amended: for a Segment with aligned columns and non-decreasing
timestamps, every cached contraction triple satisfies
`start < peak ∧ peak ≤ end` (equality of peak and end is possible only for
the final end-of-signal closure), and the triples are pairwise
non-overlapping and strictly sorted by start time. -/
theorem contractions_ordered_nonoverlapping (c : Component)
    (hlen : c.time.length = c.uc.length)
    (hm : ∀ j, j < c.uc.length → ∀ i2, i2 ≤ j → tAt c i2 ≤ tAt c j) :
    ContractionListOk c.contractions := by
  have hInv : ContractionInv c c.uc.length
      ((List.range c.uc.length).foldl (contractionStep c (median c.uc)) ⟨none, []⟩) :=
    foldl_range_inv _ (ContractionInv c) c.uc.length _ (contractionInv_init c)
      (fun i s hi hs => contractionStep_inv c (median c.uc) hm i hi s hs)
  show ContractionListOk (contractionFinish c
    ((List.range c.uc.length).foldl (contractionStep c (median c.uc)) ⟨none, []⟩))
  revert hInv
  generalize (List.range c.uc.length).foldl (contractionStep c (median c.uc)) ⟨none, []⟩ = F
  intro hInv
  obtain ⟨inC, found⟩ := F
  obtain ⟨hval, hpw, hend, hin⟩ := hInv
  cases inC with
  | none =>
    exact ⟨fun p hp => ⟨(hval p hp).1, le_of_lt (hval p hp).2⟩, hpw⟩
  | some triple =>
    obtain ⟨s, pv, pt⟩ := triple
    obtain ⟨⟨k, hk1, hk2, hk3⟩, hspt, hends⟩ := hin
    show ContractionListOk
      (if pt > s then found ++ [(s, pt, c.time.getD (c.time.length - 1) 0)] else found)
    split_ifs with hps
    · have hn : 0 < c.uc.length := lt_of_le_of_lt (Nat.zero_le k) hk2
      have hlast : pt ≤ c.time.getD (c.time.length - 1) 0 := by
        have hmono : tAt c k ≤ tAt c (c.uc.length - 1) :=
          hm (c.uc.length - 1) (Nat.sub_lt hn Nat.one_pos) k (Nat.le_pred_of_lt hk2)
        rw [hk3, hlen]
        exact hmono
      constructor
      · intro p hp
        rcases List.mem_append.mp hp with hh | hh
        · exact ⟨(hval p hh).1, le_of_lt (hval p hh).2⟩
        · rw [List.mem_singleton] at hh; subst hh
          exact ⟨hps, hlast⟩
      · refine List.pairwise_append.mpr ⟨hpw, List.pairwise_singleton _ _, ?_⟩
        intro a ha b hb
        rw [List.mem_singleton] at hb; subst hb
        have h1 : a.2.2 ≤ s := hends a ha
        have h2 := hval a ha
        exact ⟨h1, by linarith [h2.1, h2.2]⟩
    · exact ⟨fun p hp => ⟨(hval p hp).1, le_of_lt (hval p hp).2⟩, hpw⟩

/-- C5 witness: the counterexample component has aligned, sorted columns, so
the amended invariant applies to its cached contractions. -/
theorem contractions_ordered_nonoverlapping_witness :
    ContractionListOk c5c.contractions :=
  contractions_ordered_nonoverlapping c5c (by decide) (by decide)

/-- C2 witness: the subset theorem applied to the concrete component maps the
early list's member `(10, 25)` into the deceleration list. -/
theorem early_late_subsets_witness :
    ((10 : ℚ), (25 : ℚ)) ∈ detect_decelerations c2c :=
  (early_late_subsets_of_decelerations c2c (detect_decelerations c2c)).1 (by decide)

/-- C3 witness: the membership characterization instantiated on the concrete
component, with the existence side evaluated. -/
theorem early_membership_witness :
    ((10 : ℚ), (25 : ℚ)) ∈ detect_early_decelerations c2c (detect_decelerations c2c) :=
  ((early_late_membership_characterization c2c (detect_decelerations c2c) (10, 25)).1).mpr
    (by decide)

/-- C4 witness: with a bradycardic baseline as the only counted factor, the
amended mapping gives "Mild Concerns". -/
theorem overall_verdict_witness :
    combine_assessments "Bradycardia" (assess_variability 3 15) "Absent Accelerations"
      "No Decelerations" = "Mild Concerns" := by
  rw [overall_verdict_ignores_assessed_variability "Bradycardia" "Absent Accelerations"
    "No Decelerations" 3 15]
  decide

/-- C6 witness: the single kept Segment of the concrete data has exactly
`int(1000 × rate)` rows in its time column. -/
theorem segments_full_length_witness :
    (mkComponent data10).time.length = (pyTrunc (1000 * estimate_sampling_rate data10)).toNat :=
  (segments_have_full_window_length data10 (mkComponent data10) (by decide)).1

/-- C7 witness: the detection invariant instantiated at the concrete
component. -/
theorem event_lists_ok_witness :
    EventListOk (detect_accelerations c2c) ∧ EventListOk (detect_decelerations c2c) :=
  event_lists_sorted_nonoverlapping_duration_bounded c2c

/-- C10 witness: the acceleration status of the concrete component (which has
no accelerations) evaluated through the amended theorem. -/
theorem acceleration_status_binary_witness :
    (diagnose_condition c2c (analysisResults c2c 0 0)).accelerations =
      (if (detect_accelerations c2c).length = 0 then "Absent Accelerations"
       else "Normal Accelerations") ∧
    (diagnose_condition c2c (analysisResults c2c 0 0)).accelerations ≠
      "Concerning Late Accelerations" :=
  acceleration_status_binary c2c 0 0

end CTG
